import Mathlib

/-
Verification of the note-merging and metadata-resolution engine of the
manuscriptum repository (src/converters.ts, src/obsidianComponents.ts).

The TypeScript sources are shallowly embedded: the mutable
`ManuscriptMetadata` record threaded through `obsidianNotesToAST` becomes an
explicit state value returned by the fold, the external Markdown parser is
treated as a black box (a note carries its already-parsed `mdast` tree), and
the injected `fs.existsSync` dependency becomes a `String → Bool` parameter.
-/

set_option maxRecDepth 8192

namespace Manuscriptum

/-! ## String utilities mirroring the JavaScript primitives used -/

/-- Illegal Windows filename characters stripped by the sanitizer
(`name.replace` of the character class in `folderNameToDocxOutfileName`). -/
def forbiddenChars : List Char := ['<', '>', ':', '\"', '/', '\\', '|', '?', '*']

/-- `String.prototype.toLocaleLowerCase` restricted to its ASCII behavior,
which is all the sanitizer relies on. -/
def jsToLower (s : String) : String := String.mk (s.data.map Char.toLower)

/-- `name.replace(regex of forbiddenChars, "")`: every forbidden character is
deleted outright, with nothing substituted in its place. -/
def stripForbidden (s : String) : String :=
  String.mk (s.data.filter (fun c => !(forbiddenChars.contains c)))

/-- Fuel-indexed core of `String.prototype.split` on the whitespace-run regex:
a maximal run of whitespace separates pieces, a leading or trailing run yields
an empty piece, and the empty input yields the single piece `[]`.  The fuel is
always supplied as more than the list length, so the fuel-exhausted branch is
unreachable. -/
def splitWsAux : Nat → List Char → List (List Char)
  | 0, l => [l]
  | fuel + 1, l =>
    let tok := l.takeWhile (fun c => !c.isWhitespace)
    match l.dropWhile (fun c => !c.isWhitespace) with
    | [] => [tok]
    | c :: rest => tok :: splitWsAux fuel ((c :: rest).dropWhile Char.isWhitespace)

/-- `s.split` on the whitespace-run regex, as used by the word counter and the
filename sanitizer. -/
def jsSplitWs (s : String) : List String :=
  (splitWsAux (s.data.length + 1) s.data).map String.mk

/-- `String.prototype.trim`: leading and trailing whitespace removed. -/
def jsTrim (s : String) : String :=
  String.mk (((s.data.dropWhile Char.isWhitespace).reverse.dropWhile
    Char.isWhitespace).reverse)

/-- The word count of one text value:
`node.value.trim().split(whitespace runs).filter(Boolean).length`
from the visitor in `obsidianNotesToAST`. -/
def jsCountWords (v : String) : Nat :=
  ((jsSplitWs (jsTrim v)).filter (fun t => t != "")).length

/-! ## Filename sanitizer (`folderNameToDocxOutfileName`) -/

/-- The word pieces the sanitizer works from:
`name.toLocaleLowerCase().replace(forbidden chars, "").split(whitespace runs)`. -/
def filenamePieces (name : String) : List String :=
  jsSplitWs (stripForbidden (jsToLower name))

/-- The accumulation loop of `folderNameToDocxOutfileName`: starting from the
running character count `acc`, returns the `endIndex` at which the loop stops,
i.e. how many further pieces are kept.  Each kept piece adds its length plus
one for the dash separator; the first piece pushing the count past 32 stops
the loop. -/
def keepLoop : List String → Nat → Nat
  | [], _ => 0
  | p :: rest, acc =>
    if acc + p.length > 32 then 0 else 1 + keepLoop rest (acc + p.length + 1)

/-- `folderNameToDocxOutfileName`: lower-case, strip forbidden characters,
split on whitespace, keep a 32-character-bounded number of pieces (at least
one), join with dashes and append the docx extension. -/
def folderNameToDocxOutfileName (name : String) : String :=
  let pieces := filenamePieces name
  let endIndex := keepLoop pieces 0
  let endIndex2 := if endIndex == 0 then 1 else endIndex
  String.intercalate "-" (pieces.take endIndex2) ++ ".docx"

/-- Modelled from the spec: the greedy accumulation of §4.4 step 4 in its own
words, to be compared against the source-derived sanitizer.  `specGreedyGo len
rest` keeps further pieces while the dash-joined length (current length `len`,
plus one dash and the piece length) stays at or below 32; the first
overflowing piece stops accumulation and drops the remainder. -/
def specGreedyGo : Nat → List String → List String
  | _, [] => []
  | len, q :: rest =>
    if len + 1 + q.length > 32 then [] else q :: specGreedyGo (len + 1 + q.length) rest

/-- Modelled from the spec: greedy piece selection — accumulate pieces while
the joined count stays at or below 32, except that if no piece would be kept
(the very first piece alone exceeds 32) exactly one piece is kept regardless
of length. -/
def specGreedyKeep : List String → List String
  | [] => []
  | p :: rest => if p.length > 32 then [p] else p :: specGreedyGo p.length rest

/-! ## mdast document model -/

/-- Block and inline nodes of the parsed Markdown tree that the merge engine
inspects: text leaves (word counting), thematic breaks (scene separators),
yaml front-matter blocks (filtered out), and paragraphs as the container
node kind. -/
inductive MdNode where
  | text (value : String)
  | thematicBreak
  | yaml (value : String)
  | paragraph (children : List MdNode)
deriving Repr

/-- The mdast `Root`: an ordered list of top-level children. -/
structure Root where
  children : List MdNode
deriving Repr

/-- True exactly for yaml front-matter nodes (`node.type === "yaml"`). -/
def isYaml : MdNode → Bool
  | .yaml _ => true
  | _ => false

mutual

/-- Words contributed by one node: the visitor in `obsidianNotesToAST` visits
every `text` node and counts its whitespace-separated tokens; every other
node kind contributes only through its children. -/
def nodeWords : MdNode → Nat
  | .text v => jsCountWords v
  | .thematicBreak => 0
  | .yaml _ => 0
  | .paragraph cs => nodeListWords cs

/-- Words contributed by a list of sibling nodes. -/
def nodeListWords : List MdNode → Nat
  | [] => 0
  | n :: rest => nodeWords n + nodeListWords rest

end

/-- Word count of a whole parsed note tree. -/
def countWords (r : Root) : Nat := nodeListWords r.children

/-! ## Metadata model -/

/-- `ManuscriptMetadata` from converters.ts.  Optional fields model the
`string | undefined` TypeScript fields; `wordcount` is owned by the merge. -/
structure ManuscriptMetadata where
  title : String
  filename : String
  outdir : String
  author : Option String := none
  surname : Option String := none
  contact : Option String := none
  wordcount : Option Nat := none
deriving Repr, DecidableEq

/-- The six recognized override keys, in the fixed enumeration order of the
key loop in `obsidianNotesToAST`. -/
inductive MKey where
  | title
  | filename
  | outdir
  | author
  | surname
  | contact
deriving Repr, DecidableEq

/-- The string name of a recognized key, as it appears in a note's property
bag and in notices. -/
def keyName : MKey → String
  | .title => "title"
  | .filename => "filename"
  | .outdir => "outdir"
  | .author => "author"
  | .surname => "surname"
  | .contact => "contact"

/-- The key-loop iteration order of `obsidianNotesToAST`. -/
def recognizedKeys : List MKey :=
  [.title, .filename, .outdir, .author, .surname, .contact]

/-- `metadata[k]` for a recognized key: required string fields always read as
defined, optional fields read as JavaScript `undefined` when absent. -/
def getProp (m : ManuscriptMetadata) : MKey → Option String
  | .title => some m.title
  | .filename => some m.filename
  | .outdir => some m.outdir
  | .author => m.author
  | .surname => m.surname
  | .contact => m.contact

/-- `metadata[k] = val` for a recognized key. -/
def setProp (m : ManuscriptMetadata) : MKey → String → ManuscriptMetadata
  | .title, v => { m with title := v }
  | .filename, v => { m with filename := v }
  | .outdir, v => { m with outdir := v }
  | .author, v => { m with author := some v }
  | .surname, v => { m with surname := some v }
  | .contact, v => { m with contact := some v }

/-- `NoteInformation` from converters.ts.  `content` carries the result of
the external Markdown parser (a black box per the design notes), and the
front-matter cache is modelled as an association list of string properties
(the resolver's documented precondition is string-or-absent values). -/
structure NoteInformation where
  name : String
  content : Root
  frontmatter : Option (List (String × String)) := none
deriving Repr

/-! ## Metadata resolver and document merger (`obsidianNotesToAST`) -/

/-- One iteration of the key loop in `obsidianNotesToAST`.  The running state
is `(metadata, redefinedProps, notices)`.  If the bag defines the key: the
key is recorded as redefined when the current metadata value differs from the
pre-merge original; then an `outdir` value naming a non-existent directory is
rejected with a notice while every other defined value is written. -/
def applyKey (existsSync : String → Bool) (origMetadata : ManuscriptMetadata)
    (noteName : String) (fm : List (String × String))
    (st : ManuscriptMetadata × List MKey × List String) (k : MKey) :
    ManuscriptMetadata × List MKey × List String :=
  match fm.lookup (keyName k) with
  | none => st
  | some val =>
    let redefinedProps :=
      if getProp st.1 k != getProp origMetadata k then st.2.1 ++ [k] else st.2.1
    if k == MKey.outdir && !existsSync val then
      (st.1, redefinedProps,
        st.2.2 ++ ["outdir property on note " ++ noteName ++
          " has a non-existent directory: " ++ val ++
          ". Using previous output directory: " ++ st.1.outdir])
    else
      (setProp st.1 k val, redefinedProps, st.2.2)

/-- The whole key loop for one note's property bag, started from empty
`redefinedProps` and an empty local notice list. -/
def applyProps (existsSync : String → Bool) (origMetadata : ManuscriptMetadata)
    (noteName : String) (fm : List (String × String)) (m : ManuscriptMetadata) :
    ManuscriptMetadata × List MKey × List String :=
  recognizedKeys.foldl (applyKey existsSync origMetadata noteName fm) (m, [], [])

/-- The redefinition notice text built from `redefinedProps.join(", ")`. -/
def redefNotice (noteName : String) (ks : List MKey) : String :=
  "Note " ++ noteName ++ " re-defined the following properties: " ++
    String.intercalate ", " (ks.map keyName)

/-- Metadata resolution for one note: the front-matter branch of the note
loop in `obsidianNotesToAST`.  Returns the updated metadata and the notices
this note emitted, the redefinition notice (if any) last. -/
def resolveNote (existsSync : String → Bool) (origMetadata : ManuscriptMetadata)
    (info : NoteInformation) (m : ManuscriptMetadata) :
    ManuscriptMetadata × List String :=
  match info.frontmatter with
  | none => (m, [])
  | some fm =>
    let r := applyProps existsSync origMetadata info.name fm m
    if r.2.1.isEmpty then (r.1, r.2.2)
    else (r.1, r.2.2 ++ [redefNotice info.name r.2.1])

/-- The first-note versus subsequent-note branching of the merger: the first
contributing note becomes the tree, later notes append one thematic break and
their children. -/
def appendNoteTree (tree : Option Root) (noteChildren : List MdNode) : Option Root :=
  match tree with
  | none => some ⟨noteChildren⟩
  | some t => some ⟨t.children ++ MdNode.thematicBreak :: noteChildren⟩

/-- Body of the note loop of `obsidianNotesToAST`: resolve the note's
overrides, count the words of its parsed tree, filter yaml front-matter
blocks from the top level, and fold the note into the running tree. -/
def mergeStep (existsSync : String → Bool) (origMetadata : ManuscriptMetadata)
    (st : Option Root × List String × ManuscriptMetadata)
    (info : NoteInformation) :
    Option Root × List String × ManuscriptMetadata :=
  let resolved := resolveNote existsSync origMetadata info st.2.2
  let counted : ManuscriptMetadata :=
    { resolved.1 with
      wordcount := some (resolved.1.wordcount.getD 0 + countWords info.content) }
  let filtered := info.content.children.filter (fun n => !(isYaml n))
  (appendNoteTree st.1 filtered, st.2.1 ++ resolved.2, counted)

/-- `obsidianNotesToAST`: capture the pre-merge metadata as the redefinition
baseline, reset the word count to zero, and fold the ordered note list.
The TypeScript version mutates `metadata` in place and returns
`[tree, notices]`; the embedding returns the final metadata as the last
component of the triple. -/
def obsidianNotesToAST (notesInfo : List NoteInformation)
    (metadata : ManuscriptMetadata) (existsSync : String → Bool) :
    Option Root × List String × ManuscriptMetadata :=
  notesInfo.foldl (mergeStep existsSync metadata)
    (none, [], { metadata with wordcount := some 0 })

/-! ## Concrete sample inputs used by counterexamples and witnesses -/

/-- The baseline metadata used throughout the repository's own test suite. -/
def sampleMetadata : ManuscriptMetadata :=
  { title := "Story Title", filename := "storytitle.docx", outdir := "~/stories" }

/-- An `existsSync` stub for which every directory exists. -/
def alwaysExists : String → Bool := fun _ => true

/-- An `existsSync` stub for which no directory exists. -/
def neverExists : String → Bool := fun _ => false

/-- A parsed note body with no content. -/
def emptyRoot : Root := ⟨[]⟩

/-- A parsed one-paragraph note body with four words. -/
def sampleNote : NoteInformation :=
  { name := "notey",
    content := ⟨[MdNode.paragraph [MdNode.text "This is our story"]]⟩ }

/-! ## Sanitizer lemmas -/

/-- The accumulation loop keeps exactly the pieces the greedy description
keeps, once at least one piece has been accepted: starting the loop with the
running count `len + 1` (joined length so far plus the pending dash) takes
exactly the pieces `specGreedyGo len` keeps. -/
lemma take_keepLoop (l : List String) : ∀ len : Nat,
    l.take (keepLoop l (len + 1)) = specGreedyGo len l := by
  induction l with
  | nil => intro len; rfl
  | cons q rest ih =>
    intro len
    simp only [keepLoop, specGreedyGo]
    by_cases h : len + 1 + q.length > 32
    · rw [if_pos h, if_pos h]
      rfl
    · rw [if_neg h, if_neg h, Nat.add_comm 1, List.take_succ_cons]
      congr 1
      exact ih (len + 1 + q.length)

/-- The sanitizer's kept pieces are exactly the greedy selection of the spec:
the loop result, patched to at least one piece, takes `specGreedyKeep`. -/
lemma take_keep_eq_specGreedyKeep (pieces : List String) :
    pieces.take (if keepLoop pieces 0 == 0 then 1 else keepLoop pieces 0) =
      specGreedyKeep pieces := by
  cases pieces with
  | nil => rfl
  | cons p rest =>
    simp only [keepLoop, specGreedyKeep]
    by_cases h : p.length > 32
    · have h0 : 0 + p.length > 32 := by omega
      rw [if_pos h0, if_pos h]
      rfl
    · have h0 : ¬ 0 + p.length > 32 := by omega
      rw [if_neg h0, if_neg h]
      have hne : (1 + keepLoop rest (0 + p.length + 1) == 0) = false := by
        rw [Nat.add_comm 1]
        rfl
      rw [hne]
      simp only [Bool.false_eq_true, if_false, Nat.add_comm 1, List.take_succ_cons,
        Nat.zero_add]
      congr 1
      have := take_keepLoop rest p.length
      simpa using this

/-! ## Merged-tree structure lemmas -/

/-- Folding further notes onto an already-started tree appends, for each
note, one thematic break followed by that note's yaml-filtered top-level
children. -/
lemma foldl_mergeStep_tree (es : String → Bool) (orig : ManuscriptMetadata) :
    ∀ (l : List NoteInformation) (cs : List MdNode) (ns : List String)
      (m : ManuscriptMetadata),
    (l.foldl (mergeStep es orig) (some ⟨cs⟩, ns, m)).1 =
      some ⟨cs ++ l.flatMap (fun i =>
        MdNode.thematicBreak :: i.content.children.filter (fun n => !(isYaml n)))⟩ := by
  intro l
  induction l with
  | nil =>
    intro cs ns m
    simp
  | cons i rest ih =>
    intro cs ns m
    rw [List.foldl_cons]
    have hstep : mergeStep es orig (some ⟨cs⟩, ns, m) i =
        (some ⟨cs ++ MdNode.thematicBreak ::
            i.content.children.filter (fun n => !(isYaml n))⟩,
         ns ++ (resolveNote es orig i m).2,
         { (resolveNote es orig i m).1 with
           wordcount := some ((resolveNote es orig i m).1.wordcount.getD 0 +
             countWords i.content) }) := rfl
    rw [hstep, ih]
    simp

/-! ## Claim theorems: filename sanitizer -/

/-- C7: the filename sanitizer greedily accumulates whitespace-split pieces
joined by single dashes while the joined character count stays at or below
32; the first overflowing piece stops accumulation and drops the rest, except
that exactly one piece is kept when none would be; on the spec's example the
result is `example-folder-name-that-is.docx`. -/
theorem sanitizer_greedy_truncation :
    (∀ name, folderNameToDocxOutfileName name =
      String.intercalate "-" (specGreedyKeep (filenamePieces name)) ++ ".docx")
    ∧ folderNameToDocxOutfileName "Example Folder Name That Is Maybeeeee Too Long" =
        "example-folder-name-that-is.docx" := by
  constructor
  · intro name
    show String.intercalate "-" ((filenamePieces name).take
        (if keepLoop (filenamePieces name) 0 == 0 then 1
         else keepLoop (filenamePieces name) 0)) ++ ".docx" = _
    rw [take_keep_eq_specGreedyKeep]
  · decide

/-- C8 counterexample: an input with leading whitespace produces an empty
leading piece, so the joined base name starts with a dash — the claim that
empty pieces from leading whitespace are removed is false on the code. -/
theorem sanitizer_leading_whitespace_dash :
    folderNameToDocxOutfileName " a" = "-a.docx"
    ∧ (folderNameToDocxOutfileName " a").data.head? = some '-' := by
  constructor
  · decide
  · decide

/-! ## Claim theorems: empty input and merged tree shape -/

/-- C4 counterexample: for the empty note list the merge returns `none` (the
TypeScript `undefined`), not a tree value with zero children, refuting the
claim that the returned tree is never undefined. -/
theorem empty_merge_tree_is_none :
    (obsidianNotesToAST [] sampleMetadata alwaysExists).1 = none := rfl

/-- C4 (amended): for the empty note list the merge returns no tree (the
undefined value), an empty notice sequence, and metadata whose wordcount has
been reset to 0. -/
theorem merge_nil_eq : ∀ (m : ManuscriptMetadata) (es : String → Bool),
    obsidianNotesToAST [] m es = (none, [], { m with wordcount := some 0 }) := by
  intro m es
  rfl

/-- C5: for N ≥ 1 notes the merged tree's top-level children are the first
note's yaml-filtered children followed, for each later note in input order,
by exactly one thematic-break node and that note's yaml-filtered children. -/
theorem merge_tree_structure :
    ∀ (es : String → Bool) (m : ManuscriptMetadata) (info : NoteInformation)
      (rest : List NoteInformation),
    (obsidianNotesToAST (info :: rest) m es).1 =
      some ⟨info.content.children.filter (fun n => !(isYaml n)) ++
        rest.flatMap (fun i =>
          MdNode.thematicBreak :: i.content.children.filter (fun n => !(isYaml n)))⟩ := by
  intro es m info rest
  unfold obsidianNotesToAST
  rw [List.foldl_cons]
  have hstep : mergeStep es m (none, [], { m with wordcount := some 0 }) info =
      (some ⟨info.content.children.filter (fun n => !(isYaml n))⟩,
       [] ++ (resolveNote es m info { m with wordcount := some 0 }).2,
       { (resolveNote es m info { m with wordcount := some 0 }).1 with
         wordcount := some ((resolveNote es m info
             { m with wordcount := some 0 }).1.wordcount.getD 0 +
           countWords info.content) }) := rfl
  rw [hstep, foldl_mergeStep_tree]

/-! ## Claim theorems: blank values and directory existence -/

/-- C2 evaluation at the failing input: a `title` property whose value is the
empty string is written into the metadata record verbatim and produces no
notice at all — the resolver has no blank-value handling. -/
theorem blank_title_written_without_notice :
    (obsidianNotesToAST [⟨"notey", emptyRoot, some [("title", "")]⟩]
        sampleMetadata alwaysExists).2.2.title = ""
    ∧ (obsidianNotesToAST [⟨"notey", emptyRoot, some [("title", "")]⟩]
        sampleMetadata alwaysExists).2.1 = [] := by
  constructor
  · decide
  · decide

/-- C3 counterexample: with an `existsSync` for which no directory exists, a
note's `outdir` value is not written — the previous output directory is kept
and an existence notice is emitted, refuting the claim that the resolver
never performs directory-existence validation. -/
theorem outdir_existence_check_counterexample :
    (obsidianNotesToAST [⟨"notey", emptyRoot, some [("outdir", "newdir")]⟩]
        sampleMetadata neverExists).2.2.outdir = "~/stories"
    ∧ (obsidianNotesToAST [⟨"notey", emptyRoot, some [("outdir", "newdir")]⟩]
        sampleMetadata neverExists).2.1 =
      ["outdir property on note notey has a non-existent directory: newdir. " ++
        "Using previous output directory: ~/stories"] := by
  constructor
  · decide
  · decide

/-! ## Resolver frame lemmas -/

/-- Writing one recognized key leaves every other recognized key's value
unchanged. -/
lemma getProp_setProp_ne (m : ManuscriptMetadata) (k k2 : MKey) (v : String)
    (h : k ≠ k2) : getProp (setProp m k v) k2 = getProp m k2 := by
  cases k <;> cases k2 <;> simp_all [getProp, setProp]

/-- Writing a recognized key never touches the word count. -/
lemma wordcount_setProp (m : ManuscriptMetadata) (k : MKey) (v : String) :
    (setProp m k v).wordcount = m.wordcount := by
  cases k <;> rfl

/-- The word-count reset does not change any recognized key's value. -/
lemma getProp_wordcount_reset (m : ManuscriptMetadata) (w : Option Nat) (k : MKey) :
    getProp { m with wordcount := w } k = getProp m k := by
  cases k <;> rfl

/-- One key-loop iteration never touches the word count. -/
lemma applyKey_wordcount (es : String → Bool) (orig : ManuscriptMetadata)
    (name : String) (fm : List (String × String))
    (st : ManuscriptMetadata × List MKey × List String) (k : MKey) :
    ((applyKey es orig name fm st k).1).wordcount = st.1.wordcount := by
  unfold applyKey
  cases fm.lookup (keyName k) with
  | none => rfl
  | some v =>
    simp only
    split
    · rfl
    · exact wordcount_setProp st.1 k v

/-- One key-loop iteration leaves the values of all other recognized keys
unchanged. -/
lemma applyKey_getProp_ne (es : String → Bool) (orig : ManuscriptMetadata)
    (name : String) (fm : List (String × String))
    (st : ManuscriptMetadata × List MKey × List String) (k k2 : MKey)
    (h : k ≠ k2) :
    getProp (applyKey es orig name fm st k).1 k2 = getProp st.1 k2 := by
  unfold applyKey
  cases fm.lookup (keyName k) with
  | none => rfl
  | some v =>
    simp only
    split
    · rfl
    · exact getProp_setProp_ne st.1 k k2 v h

/-- One key-loop iteration records the key as redefined exactly when the bag
defines it and its current metadata value differs from the pre-merge
original. -/
lemma applyKey_redef (es : String → Bool) (orig : ManuscriptMetadata)
    (name : String) (fm : List (String × String))
    (st : ManuscriptMetadata × List MKey × List String) (k : MKey) :
    (applyKey es orig name fm st k).2.1 =
      st.2.1 ++ (if (fm.lookup (keyName k)).isSome &&
          (getProp st.1 k != getProp orig k) then [k] else []) := by
  unfold applyKey
  cases fm.lookup (keyName k) with
  | none => simp
  | some v =>
    simp only [Option.isSome_some, Bool.true_and]
    cases hb : getProp st.1 k != getProp orig k with
    | false =>
      simp only [hb, Bool.false_eq_true, if_false, List.append_nil]
      split <;> rfl
    | true =>
      simp only [hb, if_true]
      split <;> rfl

/-- A key-loop iteration for a key other than `outdir` emits no notice. -/
lemma applyKey_notices_ne (es : String → Bool) (orig : ManuscriptMetadata)
    (name : String) (fm : List (String × String))
    (st : ManuscriptMetadata × List MKey × List String) (k : MKey)
    (h : k ≠ MKey.outdir) :
    (applyKey es orig name fm st k).2.2 = st.2.2 := by
  unfold applyKey
  cases fm.lookup (keyName k) with
  | none => rfl
  | some v =>
    simp only
    split
    · next hcond =>
      rw [Bool.and_eq_true, beq_iff_eq] at hcond
      exact absurd hcond.1 h
    · rfl

/-- A key-loop iteration for a key the bag does not define is a no-op. -/
lemma applyKey_none (es : String → Bool) (orig : ManuscriptMetadata)
    (name : String) (fm : List (String × String))
    (st : ManuscriptMetadata × List MKey × List String) (k : MKey)
    (h : fm.lookup (keyName k) = none) :
    applyKey es orig name fm st k = st := by
  unfold applyKey
  rw [h]

/-- Folding the key loop over a duplicate-free key list accumulates, in key
order, exactly the keys the bag defines whose metadata value at the start of
the note already differs from the pre-merge original. -/
lemma foldl_applyKey_redef (es : String → Bool) (orig : ManuscriptMetadata)
    (name : String) (fm : List (String × String)) :
    ∀ (ks : List MKey) (st : ManuscriptMetadata × List MKey × List String),
    ks.Nodup →
    (ks.foldl (applyKey es orig name fm) st).2.1 =
      st.2.1 ++ ks.filter (fun k =>
        (fm.lookup (keyName k)).isSome && (getProp st.1 k != getProp orig k)) := by
  intro ks
  induction ks with
  | nil =>
    intro st hnd
    simp
  | cons k rest ih =>
    intro st hnd
    rw [List.nodup_cons] at hnd
    rw [List.foldl_cons, ih _ hnd.2]
    have hcongr : rest.filter (fun k2 =>
        (fm.lookup (keyName k2)).isSome &&
          (getProp (applyKey es orig name fm st k).1 k2 != getProp orig k2)) =
      rest.filter (fun k2 =>
        (fm.lookup (keyName k2)).isSome && (getProp st.1 k2 != getProp orig k2)) := by
      apply List.filter_congr
      intro k2 hk2
      have hne : k ≠ k2 := fun he => hnd.1 (he ▸ hk2)
      rw [applyKey_getProp_ne es orig name fm st k k2 hne]
    rw [hcongr, applyKey_redef, List.filter_cons]
    cases hb : (fm.lookup (keyName k)).isSome && (getProp st.1 k != getProp orig k) with
    | false => simp
    | true => simp

/-- The whole key loop records exactly the recognized keys the bag defines
whose current metadata value differs from the pre-merge original. -/
lemma applyProps_redef (es : String → Bool) (orig m : ManuscriptMetadata)
    (name : String) (fm : List (String × String)) :
    (applyProps es orig name fm m).2.1 =
      recognizedKeys.filter (fun k =>
        (fm.lookup (keyName k)).isSome && (getProp m k != getProp orig k)) := by
  unfold applyProps
  rw [foldl_applyKey_redef es orig name fm recognizedKeys (m, [], []) (by decide)]
  rfl

/-- At the start of the merge (word count just reset) no recognized key
differs from the pre-merge original, so the key loop records nothing. -/
lemma applyProps_redef_initial (es : String → Bool) (orig : ManuscriptMetadata)
    (name : String) (fm : List (String × String)) :
    (applyProps es orig name fm { orig with wordcount := some 0 }).2.1 = [] := by
  rw [applyProps_redef]
  apply List.filter_eq_nil_iff.mpr
  intro k hk
  rw [getProp_wordcount_reset, bne_self_eq_false]
  simp

/-- Unfolding equation of `resolveNote` for a note that carries properties. -/
lemma resolveNote_some (es : String → Bool) (orig : ManuscriptMetadata)
    (name : String) (content : Root) (fm : List (String × String))
    (m : ManuscriptMetadata) :
    resolveNote es orig ⟨name, content, some fm⟩ m =
      (if (applyProps es orig name fm m).2.1.isEmpty then
        ((applyProps es orig name fm m).1, (applyProps es orig name fm m).2.2)
      else
        ((applyProps es orig name fm m).1,
         (applyProps es orig name fm m).2.2 ++
           [redefNotice name (applyProps es orig name fm m).2.1])) := rfl

/-- The key loop never touches the word count. -/
lemma foldl_applyKey_wordcount (es : String → Bool) (orig : ManuscriptMetadata)
    (name : String) (fm : List (String × String)) :
    ∀ (ks : List MKey) (st : ManuscriptMetadata × List MKey × List String),
    ((ks.foldl (applyKey es orig name fm) st).1).wordcount = st.1.wordcount := by
  intro ks
  induction ks with
  | nil => intro st; rfl
  | cons k rest ih =>
    intro st
    rw [List.foldl_cons, ih, applyKey_wordcount]

/-- Metadata resolution never touches the word count. -/
lemma resolveNote_wordcount (es : String → Bool) (orig : ManuscriptMetadata)
    (info : NoteInformation) (m : ManuscriptMetadata) :
    (resolveNote es orig info m).1.wordcount = m.wordcount := by
  unfold resolveNote
  cases info.frontmatter with
  | none => rfl
  | some fm =>
    simp only
    split
    · exact foldl_applyKey_wordcount es orig info.name fm recognizedKeys (m, [], [])
    · exact foldl_applyKey_wordcount es orig info.name fm recognizedKeys (m, [], [])

/-! ## Word-count accumulation lemmas -/

/-- Folding notes onto a state whose word count is `w` adds exactly the sum
of the notes' word counts. -/
lemma foldl_mergeStep_wordcount (es : String → Bool) (orig : ManuscriptMetadata) :
    ∀ (l : List NoteInformation) (t : Option Root) (ns : List String)
      (m : ManuscriptMetadata) (w : Nat),
    m.wordcount = some w →
    ((l.foldl (mergeStep es orig) (t, ns, m)).2.2).wordcount =
      some (w + (l.map (fun i => countWords i.content)).sum) := by
  intro l
  induction l with
  | nil =>
    intro t ns m w h
    simpa using h
  | cons i rest ih =>
    intro t ns m w h
    rw [List.foldl_cons]
    have h2 : (resolveNote es orig i m).1.wordcount = some w := by
      rw [resolveNote_wordcount]
      exact h
    have hstep : mergeStep es orig (t, ns, m) i =
        (appendNoteTree t (i.content.children.filter (fun n => !(isYaml n))),
         ns ++ (resolveNote es orig i m).2,
         { (resolveNote es orig i m).1 with
           wordcount := some (w + countWords i.content) }) := by
      simp only [mergeStep, h2, Option.getD_some]
    rw [hstep, ih _ _ _ (w + countWords i.content) rfl]
    simp [Nat.add_assoc]

/-- The final word count of a merge is the sum of the notes' word counts. -/
lemma merge_wordcount_sum (es : String → Bool) (m : ManuscriptMetadata)
    (notes : List NoteInformation) :
    ((obsidianNotesToAST notes m es).2.2).wordcount =
      some ((notes.map (fun i => countWords i.content)).sum) := by
  unfold obsidianNotesToAST
  simpa using foldl_mergeStep_wordcount es m notes none []
    { m with wordcount := some 0 } 0 rfl

/-! ## Claim theorems: word count, redefinition semantics -/

/-- C6: the merge resets the word count, and at completion it equals the sum
over all notes of the whitespace-separated token counts of their text leaves
(yaml front-matter contributes nothing); folding any further notes onto a
prefix never decreases it. -/
theorem wordcount_additivity :
    ∀ (es : String → Bool) (m : ManuscriptMetadata) (notes : List NoteInformation),
    ((obsidianNotesToAST notes m es).2.2).wordcount =
      some ((notes.map (fun i => countWords i.content)).sum)
    ∧ ∀ (l1 l2 : List NoteInformation), notes = l1 ++ l2 →
        ((obsidianNotesToAST l1 m es).2.2).wordcount.getD 0 ≤
          ((obsidianNotesToAST notes m es).2.2).wordcount.getD 0 := by
  intro es m notes
  refine ⟨merge_wordcount_sum es m notes, ?_⟩
  intro l1 l2 hsplit
  subst hsplit
  rw [merge_wordcount_sum, merge_wordcount_sum]
  simp only [Option.getD_some, List.map_append, List.sum_append]
  exact Nat.le_add_right _ _

/-- Witness for C6 at a concrete input: the one-note list extends the empty
list and its word count is four. -/
theorem wordcount_additivity_witness :
    ([sampleNote] : List NoteInformation) = [] ++ [sampleNote]
    ∧ ((obsidianNotesToAST [] sampleMetadata alwaysExists).2.2).wordcount.getD 0 ≤
        ((obsidianNotesToAST [sampleNote] sampleMetadata alwaysExists).2.2).wordcount.getD 0
    ∧ ((obsidianNotesToAST [sampleNote] sampleMetadata alwaysExists).2.2).wordcount = some 4 :=
  ⟨rfl,
   (wordcount_additivity alwaysExists sampleMetadata [sampleNote]).2 [] [sampleNote] rfl,
   by decide⟩

/-- C9: the key loop records key k as redefined exactly when the note's bag
defines k and the metadata value of k at the moment the note is processed
already differs from the pre-merge snapshot; in particular at the start of
the merge (word count just reset) nothing is recorded, so a single-note merge
emits only the key-loop notices and never a redefinition notice. -/
theorem redefined_props_baseline :
    (∀ (es : String → Bool) (orig m : ManuscriptMetadata) (name : String)
        (fm : List (String × String)),
      (applyProps es orig name fm m).2.1 =
        recognizedKeys.filter (fun k =>
          (fm.lookup (keyName k)).isSome && (getProp m k != getProp orig k)))
    ∧ (∀ (es : String → Bool) (orig : ManuscriptMetadata) (name : String)
        (fm : List (String × String)),
      (applyProps es orig name fm { orig with wordcount := some 0 }).2.1 = [])
    ∧ (∀ (es : String → Bool) (m : ManuscriptMetadata) (name : String)
        (content : Root) (fm : List (String × String)),
      (obsidianNotesToAST [⟨name, content, some fm⟩] m es).2.1 =
        (applyProps es m name fm { m with wordcount := some 0 }).2.2) := by
  refine ⟨applyProps_redef, applyProps_redef_initial, ?_⟩
  intro es m name content fm
  show [] ++ (resolveNote es m ⟨name, content, some fm⟩
      { m with wordcount := some 0 }).2 = _
  rw [List.nil_append, resolveNote_some, applyProps_redef_initial]
  simp

/-- C1 counterexample: a first (and only) note writes a `title` differing
from the pre-merge baseline, yet no redefinition is recorded and no notice is
emitted — refuting the claim that the comparison is between the value about
to be written and the baseline. -/
theorem firstNote_differing_value_not_recorded :
    (obsidianNotesToAST [⟨"notey", emptyRoot, some [("title", "X")]⟩]
        sampleMetadata alwaysExists).2.2.title = "X"
    ∧ sampleMetadata.title ≠ "X"
    ∧ (obsidianNotesToAST [⟨"notey", emptyRoot, some [("title", "X")]⟩]
        sampleMetadata alwaysExists).2.1 = [] := by
  refine ⟨by decide, by decide, by decide⟩

/-- C1 (amended): a note's redefinition notice is emitted exactly when some
recognized key is both defined by the note's bag and already holds, at the
moment the note is processed, a metadata value differing from the pre-merge
baseline; the notice lists exactly those keys in enumeration order. -/
theorem redefNotice_emission :
    ∀ (es : String → Bool) (orig m : ManuscriptMetadata) (name : String)
      (content : Root) (fm : List (String × String)),
    (resolveNote es orig ⟨name, content, some fm⟩ m).2 =
      (applyProps es orig name fm m).2.2 ++
        (if (recognizedKeys.filter (fun k =>
              (fm.lookup (keyName k)).isSome &&
                (getProp m k != getProp orig k))).isEmpty
         then []
         else [redefNotice name (recognizedKeys.filter (fun k =>
              (fm.lookup (keyName k)).isSome &&
                (getProp m k != getProp orig k)))]) := by
  intro es orig m name content fm
  rw [resolveNote_some, applyProps_redef]
  split <;> simp

/-! ## Outdir-specific lemmas -/

/-- Writing any key other than `outdir` leaves the output directory field
unchanged. -/
lemma setProp_outdir_ne (m : ManuscriptMetadata) (k : MKey) (v : String)
    (h : k ≠ MKey.outdir) : (setProp m k v).outdir = m.outdir := by
  cases k <;> simp_all [setProp]

/-- A key-loop iteration for a key other than `outdir` leaves the output
directory field unchanged. -/
lemma applyKey_outdir_field_ne (es : String → Bool) (orig : ManuscriptMetadata)
    (name : String) (fm : List (String × String))
    (st : ManuscriptMetadata × List MKey × List String) (k : MKey)
    (h : k ≠ MKey.outdir) :
    ((applyKey es orig name fm st k).1).outdir = st.1.outdir := by
  unfold applyKey
  cases fm.lookup (keyName k) with
  | none => rfl
  | some v =>
    simp only
    split
    · rfl
    · exact setProp_outdir_ne st.1 k v h

/-- The `outdir` iteration of the key loop: the value is written exactly when
the injected `existsSync` accepts it; otherwise the previous directory is
kept and the existence notice is emitted. -/
lemma applyKey_outdir_step (es : String → Bool) (orig : ManuscriptMetadata)
    (name : String) (fm : List (String × String))
    (st : ManuscriptMetadata × List MKey × List String) (v : String)
    (h : fm.lookup "outdir" = some v) :
    ((applyKey es orig name fm st MKey.outdir).1).outdir =
      (if es v then v else st.1.outdir)
    ∧ (applyKey es orig name fm st MKey.outdir).2.2 =
        st.2.2 ++ (if es v then [] else
          ["outdir property on note " ++ name ++
            " has a non-existent directory: " ++ v ++
            ". Using previous output directory: " ++ st.1.outdir]) := by
  unfold applyKey
  have hk : keyName MKey.outdir = "outdir" := rfl
  rw [hk, h]
  cases hes : es v with
  | true => simp [hes, setProp]
  | false => simp [hes]

/-- C3 (amended): the resolver does perform directory-existence validation
through the injected `existsSync`: when a note's bag defines `outdir`, the
value is written exactly when `existsSync` accepts it, and otherwise the
previous output directory is kept and a single notice naming the
non-existent directory is emitted by the key loop. -/
theorem outdir_existence_validation :
    ∀ (es : String → Bool) (orig : ManuscriptMetadata) (name : String)
      (fm : List (String × String)) (m : ManuscriptMetadata) (v : String),
    fm.lookup "outdir" = some v →
    (applyProps es orig name fm m).1.outdir = (if es v then v else m.outdir)
    ∧ (applyProps es orig name fm m).2.2 =
        (if es v then [] else
          ["outdir property on note " ++ name ++
            " has a non-existent directory: " ++ v ++
            ". Using previous output directory: " ++ m.outdir]) := by
  intro es orig name fm m v h
  unfold applyProps recognizedKeys
  simp only [List.foldl_cons, List.foldl_nil]
  set st1 := applyKey es orig name fm (m, [], []) MKey.title with hst1
  set st2 := applyKey es orig name fm st1 MKey.filename with hst2
  set st3 := applyKey es orig name fm st2 MKey.outdir with hst3
  set st4 := applyKey es orig name fm st3 MKey.author with hst4
  set st5 := applyKey es orig name fm st4 MKey.surname with hst5
  have h1o : st1.1.outdir = m.outdir :=
    applyKey_outdir_field_ne es orig name fm (m, [], []) MKey.title (by decide)
  have h2o : st2.1.outdir = m.outdir := by
    rw [hst2, applyKey_outdir_field_ne es orig name fm st1 MKey.filename (by decide),
      h1o]
  have h1n : st1.2.2 = ([] : List String) :=
    applyKey_notices_ne es orig name fm (m, [], []) MKey.title (by decide)
  have h2n : st2.2.2 = ([] : List String) := by
    rw [hst2, applyKey_notices_ne es orig name fm st1 MKey.filename (by decide), h1n]
  have h3 := applyKey_outdir_step es orig name fm st2 v h
  have h3o : st3.1.outdir = (if es v then v else m.outdir) := by
    rw [hst3, h3.1, h2o]
  have h3n : st3.2.2 = (if es v then [] else
      ["outdir property on note " ++ name ++
        " has a non-existent directory: " ++ v ++
        ". Using previous output directory: " ++ m.outdir]) := by
    rw [hst3, h3.2, h2n, h2o, List.nil_append]
  have h4o : st4.1.outdir = st3.1.outdir :=
    applyKey_outdir_field_ne es orig name fm st3 MKey.author (by decide)
  have h4n : st4.2.2 = st3.2.2 :=
    applyKey_notices_ne es orig name fm st3 MKey.author (by decide)
  have h5o : st5.1.outdir = st3.1.outdir := by
    rw [hst5, applyKey_outdir_field_ne es orig name fm st4 MKey.surname (by decide),
      h4o]
  have h5n : st5.2.2 = st3.2.2 := by
    rw [hst5, applyKey_notices_ne es orig name fm st4 MKey.surname (by decide), h4n]
  constructor
  · rw [applyKey_outdir_field_ne es orig name fm st5 MKey.contact (by decide), h5o,
      h3o]
  · rw [applyKey_notices_ne es orig name fm st5 MKey.contact (by decide), h5n, h3n]

/-- Witness for C3 (amended) at a concrete input: an `outdir` override under
an `existsSync` that rejects everything keeps the previous directory and
emits the existence notice. -/
theorem outdir_existence_validation_witness :
    (([("outdir", "newdir")] : List (String × String)).lookup "outdir" =
      some "newdir")
    ∧ ((applyProps neverExists sampleMetadata "notey" [("outdir", "newdir")]
          sampleMetadata).1.outdir =
        (if neverExists "newdir" then "newdir" else sampleMetadata.outdir)
      ∧ (applyProps neverExists sampleMetadata "notey" [("outdir", "newdir")]
          sampleMetadata).2.2 =
        (if neverExists "newdir" then [] else
          ["outdir property on note " ++ "notey" ++
            " has a non-existent directory: " ++ "newdir" ++
            ". Using previous output directory: " ++ sampleMetadata.outdir])) :=
  ⟨by decide,
   outdir_existence_validation neverExists sampleMetadata "notey"
     [("outdir", "newdir")] sampleMetadata "newdir" (by decide)⟩

/-! ## Unrecognized-key lemmas -/

/-- A key loop over keys the bag does not define is the identity. -/
lemma foldl_applyKey_none (es : String → Bool) (orig : ManuscriptMetadata)
    (name : String) (fm : List (String × String)) :
    ∀ (ks : List MKey) (st : ManuscriptMetadata × List MKey × List String),
    (∀ k ∈ ks, fm.lookup (keyName k) = none) →
    ks.foldl (applyKey es orig name fm) st = st := by
  intro ks
  induction ks with
  | nil => intro st hn; rfl
  | cons k rest ih =>
    intro st hn
    rw [List.foldl_cons, applyKey_none es orig name fm st k (hn k (List.mem_cons_self k rest))]
    exact ih st (fun k2 hk2 => hn k2 (List.mem_cons_of_mem k hk2))

/-- C10: a note whose property bag defines none of the six recognized keys
changes nothing except the running tree and the word count: the metadata
record keeps every field but `wordcount`, and no notice is emitted for the
note. -/
theorem unrecognized_keys_frame :
    ∀ (es : String → Bool) (orig : ManuscriptMetadata) (tree : Option Root)
      (notices : List String) (m : ManuscriptMetadata) (name : String)
      (content : Root) (fm : List (String × String)),
    (∀ k ∈ recognizedKeys, fm.lookup (keyName k) = none) →
    mergeStep es orig (tree, notices, m) ⟨name, content, some fm⟩ =
      (appendNoteTree tree (content.children.filter (fun n => !(isYaml n))),
       notices,
       { m with wordcount := some (m.wordcount.getD 0 + countWords content) }) := by
  intro es orig tree notices m name content fm hnone
  have hres : resolveNote es orig ⟨name, content, some fm⟩ m = (m, []) := by
    rw [resolveNote_some]
    have happ : applyProps es orig name fm m = (m, [], []) :=
      foldl_applyKey_none es orig name fm recognizedKeys (m, [], []) hnone
    rw [happ]
    rfl
  simp only [mergeStep, hres, List.append_nil]

/-- Witness for C10 at a concrete input: a bag holding only the key
`irrelevant` leaves metadata (except wordcount) and notices untouched. -/
theorem unrecognized_keys_frame_witness :
    (∀ k ∈ recognizedKeys,
      (([("irrelevant", "ignored!")] : List (String × String))).lookup (keyName k) =
        none)
    ∧ mergeStep alwaysExists sampleMetadata (none, [], sampleMetadata)
        ⟨"notey", sampleNote.content, some [("irrelevant", "ignored!")]⟩ =
      (appendNoteTree none
        (sampleNote.content.children.filter (fun n => !(isYaml n))),
       [],
       { sampleMetadata with
         wordcount := some (sampleMetadata.wordcount.getD 0 +
           countWords sampleNote.content) }) :=
  ⟨by decide,
   unrecognized_keys_frame alwaysExists sampleMetadata none [] sampleMetadata
     "notey" sampleNote.content [("irrelevant", "ignored!")] (by decide)⟩

/-! ## Whitespace-splitting purity lemmas -/

/-- The head of a `dropWhile` result fails the predicate. -/
lemma dropWhile_head_false {α : Type} (p : α → Bool) :
    ∀ (l : List α) (c : α) (t : List α), l.dropWhile p = c :: t → p c = false := by
  intro l
  induction l with
  | nil =>
    intro c t h
    simp [List.dropWhile] at h
  | cons a l2 ih =>
    intro c t h
    rw [List.dropWhile_cons] at h
    by_cases hp : p a
    · rw [if_pos hp] at h
      exact ih c t h
    · rw [if_neg hp] at h
      cases h
      simpa using hp

/-- With sufficient fuel, every character of every piece produced by the
whitespace splitter is a non-whitespace character of the input. -/
lemma splitWsAux_mem :
    ∀ (fuel : Nat) (l : List Char), l.length < fuel →
    ∀ tok ∈ splitWsAux fuel l, ∀ c ∈ tok, c.isWhitespace = false ∧ c ∈ l := by
  intro fuel
  induction fuel with
  | zero =>
    intro l hl
    exact absurd hl (Nat.not_lt_zero _)
  | succ fuel ih =>
    intro l hl tok htok c hc
    cases hd : l.dropWhile (fun c => !c.isWhitespace) with
    | nil =>
      have heq : splitWsAux (fuel + 1) l =
          [l.takeWhile (fun c => !c.isWhitespace)] := by
        simp [splitWsAux, hd]
      rw [heq] at htok
      rw [List.mem_singleton] at htok
      subst htok
      refine ⟨?_, (List.takeWhile_sublist _).subset hc⟩
      have := List.mem_takeWhile_imp hc
      simpa using this
    | cons d rest =>
      have heq : splitWsAux (fuel + 1) l =
          l.takeWhile (fun c => !c.isWhitespace) ::
            splitWsAux fuel ((d :: rest).dropWhile Char.isWhitespace) := by
        simp [splitWsAux, hd]
      rw [heq] at htok
      rcases List.mem_cons.mp htok with h1 | h1
      · subst h1
        refine ⟨?_, (List.takeWhile_sublist _).subset hc⟩
        have := List.mem_takeWhile_imp hc
        simpa using this
      · have hd_ws : d.isWhitespace = true := by
          have := dropWhile_head_false (fun c => !c.isWhitespace) l d rest hd
          simpa using this
        have hsub : (d :: rest).Sublist l := by
          rw [← hd]
          exact List.dropWhile_sublist _
        have hlen : ((d :: rest).dropWhile Char.isWhitespace).length < fuel := by
          have hdrop : (d :: rest).dropWhile Char.isWhitespace =
              rest.dropWhile Char.isWhitespace := by
            rw [List.dropWhile_cons, if_pos hd_ws]
          have hle : (rest.dropWhile Char.isWhitespace).length ≤ rest.length :=
            (List.dropWhile_sublist _).length_le
          have hr : rest.length + 1 ≤ l.length := by
            have := hsub.length_le
            simpa using this
          rw [hdrop]
          omega
        have hrec := ih _ hlen tok h1 c hc
        refine ⟨hrec.1, ?_⟩
        exact hsub.subset ((List.dropWhile_sublist _).subset hrec.2)

/-- C8 (amended): the sanitizer lower-cases its input, strips every
forbidden character without substitution, and splits on runs of whitespace —
so no piece contains whitespace or a forbidden character — but empty pieces
arising from leading or trailing whitespace are kept, so a leading-whitespace
input yields a base name that starts with a dash. -/
theorem sanitizer_pieces_characterization :
    (∀ (name p : String), p ∈ filenamePieces name →
      ∀ c ∈ p.data, c.isWhitespace = false ∧ forbiddenChars.contains c = false)
    ∧ folderNameToDocxOutfileName "A<B" = "ab.docx"
    ∧ folderNameToDocxOutfileName " a" = "-a.docx" := by
  refine ⟨?_, by decide, by decide⟩
  intro name p hp c hc
  unfold filenamePieces jsSplitWs at hp
  rcases List.mem_map.mp hp with ⟨tok, htok, hmk⟩
  subst hmk
  have hmem := splitWsAux_mem _ _ (Nat.lt_succ_self _) tok htok c hc
  refine ⟨hmem.1, ?_⟩
  have hc2 : c ∈ (stripForbidden (jsToLower name)).data := hmem.2
  unfold stripForbidden at hc2
  have := List.mem_filter.mp hc2
  simpa using this.2

/-- Witness for C8 (amended) at a concrete input: the piece `a` of the
leading-whitespace input consists of non-whitespace, non-forbidden
characters. -/
theorem sanitizer_pieces_characterization_witness :
    ("a" ∈ filenamePieces " a")
    ∧ ('a' ∈ ("a" : String).data)
    ∧ ('a'.isWhitespace = false ∧ forbiddenChars.contains 'a' = false) :=
  ⟨by decide, by decide,
   sanitizer_pieces_characterization.1 " a" "a" (by decide) 'a' (by decide)⟩

end Manuscriptum
